import Mathlib

/-!
Verification of the knott game-state core: coordinates, the id+label
registry (`LookupTable`), suffix specification resolution, the def-to-spec
compiler, and the sharded piece-state store with its `CreatePieces`
command.  Rust `HashMap`s are modelled as association lists iterated in
insertion order; `u32`/`u16` values are modelled as `Nat` and `i32` as
`Int`, with truncating casts written out explicitly where the source
performs them.
-/

set_option maxRecDepth 4096

namespace Knott

/-! ### Association-list model of HashMap -/

/-- First-match lookup in an association list (HashMap `get`). -/
def alookup {K V : Type} [DecidableEq K] : List (K × V) → K → Option V
  | [], _ => none
  | e :: rest, k => if e.1 = k then some e.2 else alookup rest k

/-- Apply `f` to the value stored at the first entry whose key is `k`
(HashMap `get_mut` followed by in-place mutation). -/
def aupdate {K V : Type} [DecidableEq K] : List (K × V) → K → (V → V) → List (K × V)
  | [], _, _ => []
  | e :: rest, k, f => if e.1 = k then (e.1, f e.2) :: rest else e :: aupdate rest k f

/-- HashMap `insert`: replace the value at an existing key, else append. -/
def hmInsert {K V : Type} [DecidableEq K] : List (K × V) → K → V → List (K × V)
  | [], k, v => [(k, v)]
  | e :: rest, k, v => if e.1 = k then (k, v) :: rest else e :: hmInsert rest k v


/-! ### Coordinates (src/coords.rs)

`Kind` and `Pos` wrap a `NonZeroU16` in the source; here they carry the
stored 16-bit value as a `Nat`.  `Suffix` wraps an `i32`, `Region` a `u16`.
-/

structure Kind where
  val : Nat
  deriving DecidableEq

structure InvalidKind where
  val : Nat
  deriving DecidableEq

/-- Largest admissible `Kind`/`Pos` id (`MAX_KIND`/`MAX_POS`). -/
def MAX_ID : Nat := 9999

/-- Conversion `TryFrom<u32> for Kind`: reject values above `MAX_KIND`,
then truncate to `u16` (a no-op under the bound) and reject zero. -/
def Kind.try_from (value : Nat) : Except InvalidKind Kind :=
  if value > MAX_ID then .error ⟨value⟩
  else if value % 65536 = 0 then .error ⟨value⟩
  else .ok ⟨value % 65536⟩

def Kind.as_u32 (k : Kind) : Nat := k.val

structure Pos where
  val : Nat
  deriving DecidableEq

structure InvalidPos where
  val : Nat
  deriving DecidableEq

/-- Conversion `TryFrom<u32> for Pos`, same bounds as `Kind`. -/
def Pos.try_from (value : Nat) : Except InvalidPos Pos :=
  if value > MAX_ID then .error ⟨value⟩
  else if value % 65536 = 0 then .error ⟨value⟩
  else .ok ⟨value % 65536⟩

def Pos.as_u32 (p : Pos) : Nat := p.val

structure Suffix where
  val : Int
  deriving DecidableEq

structure Region where
  val : Nat
  deriving DecidableEq

/-- Qualified position coordinate; fields per the spec data model. -/
structure QPos where
  pos : Pos
  region : Region
  suffix : Suffix
  deriving DecidableEq

/-- Qualified kind coordinate; fields per the spec data model. -/
structure QKind where
  kind : Kind
  suffix : Suffix
  deriving DecidableEq

/-- Reinterpretation of a `u32` value as an `i32` (`value.id as i32`). -/
def u32_as_i32 (u : Nat) : Int :=
  if u < 2 ^ 31 then (u : Int) else (u : Int) - 2 ^ 32

/-! ### Registry (src/lookup.rs) -/

class HasId (I : outParam Type) (V : Type) where
  id : V → I

class Labelled (V : Type) where
  label : V → String

inductive Collision (I : Type) where
  | IdCollision (id : I)
  | LabelCollision (label : String)
  deriving DecidableEq

/-- Id-and-label keyed registry; both HashMap indices kept as assoc lists. -/
structure LookupTable (I V : Type) where
  values : List (I × V)
  label_index : List (String × I)
  deriving DecidableEq

namespace LookupTable

variable {I V : Type} [DecidableEq I] [HasId I V] [Labelled V]

def empty : LookupTable I V := ⟨[], []⟩

/-- Vacant-entry insert: id collision checked before label collision. -/
def push (t : LookupTable I V) (item : V) : Except (Collision I) (LookupTable I V) :=
  if (alookup t.values (HasId.id item)).isSome then
    .error (.IdCollision (HasId.id item))
  else if (alookup t.label_index (Labelled.label item)).isSome then
    .error (.LabelCollision (Labelled.label item))
  else
    .ok ⟨t.values ++ [(HasId.id item, item)],
         t.label_index ++ [(Labelled.label item, HasId.id item)]⟩

def contains_id (t : LookupTable I V) (index : I) : Bool :=
  (alookup t.values index).isSome

def find (t : LookupTable I V) (index : I) : Option V :=
  alookup t.values index

def find_by_label (t : LookupTable I V) (label : String) : Option V :=
  (alookup t.label_index label).bind fun i => alookup t.values i

/-- The loop body of `TryFrom<Vec<V>>`: push each value, abandoning the
rest on the first collision. -/
def pushAll (t : LookupTable I V) : List V → Except (Collision I) (LookupTable I V)
  | [] => .ok t
  | v :: rest =>
      match t.push v with
      | .error c => .error c
      | .ok t2 => t2.pushAll rest

/-- Conversion `TryFrom<Vec<V>> for LookupTable`. -/
def try_from_list (values : List V) : Except (Collision I) (LookupTable I V) :=
  pushAll empty values

end LookupTable

/-! ### Raw definitions (src/defs.rs) -/

structure SuffixRangeDef where
  min : Int
  max : Int
  deriving DecidableEq

structure SuffixDef where
  label : String
  id : Nat
  deriving DecidableEq

structure KindDef where
  label : String
  id : Nat
  suffix_range : Option SuffixRangeDef
  suffixes : List SuffixDef
  deriving DecidableEq

structure PosDef where
  label : String
  id : Nat
  suffix_range : Option SuffixRangeDef
  suffixes : List SuffixDef
  separate : Bool
  ordered : Bool
  hidden : Bool
  deriving DecidableEq

structure GameDef where
  label : String
  min_players : Nat
  max_players : Nat
  kind_defs : List KindDef
  pos_defs : List PosDef
  deriving DecidableEq

/-! ### Errors (src/error.rs) -/

inductive SuffixRowError where
  | Thing
  deriving DecidableEq

inductive ItemError where
  | InvalidId (v : Nat)
  | SuffixesAndRangeDefined
  | InvalidSuffixRange (min max : Int)
  | InvalidSuffixRow (e : SuffixRowError)
  | InvalidSuffixTable (c : Collision Suffix)
  deriving DecidableEq

inductive Error where
  | InvalidNumPlayers (v : Nat)
  | InvalidPos (e : ItemError)
  | InvalidPosTable (c : Collision Pos)
  | InvalidKind (e : ItemError)
  | InvalidKindTable (c : Collision Kind)
  deriving DecidableEq

inductive CmdError where
  | NoSuchPos (p : Pos)
  deriving DecidableEq

/-! ### Compiled specifications (src/specs.rs) -/

structure SuffixRow where
  suffix : Suffix
  label : String
  deriving DecidableEq

instance : HasId Suffix SuffixRow := ⟨fun r => r.suffix⟩

instance : Labelled SuffixRow := ⟨fun r => r.label⟩

/-- Conversion `TryFrom<SuffixDef> for SuffixRow`: infallible in the
source, the unsigned id is reinterpreted as a signed 32-bit suffix. -/
def SuffixRow.try_from (value : SuffixDef) : Except SuffixRowError SuffixRow :=
  .ok ⟨⟨u32_as_i32 value.id⟩, value.label⟩

structure SuffixRange where
  min : Suffix
  max : Suffix
  deriving DecidableEq

def SuffixRange.contains_suffix (r : SuffixRange) (suffix : Suffix) : Bool :=
  r.min.val ≤ suffix.val && suffix.val ≤ r.max.val

/-- Conversion `TryFrom<SuffixRangeDef> for SuffixRange`: requires
`min < max` strictly. -/
def SuffixRange.try_from (value : SuffixRangeDef) : Except ItemError SuffixRange :=
  if value.min < value.max then .ok ⟨⟨value.min⟩, ⟨value.max⟩⟩
  else .error (.InvalidSuffixRange value.min value.max)

inductive SuffixSpec where
  | Empty
  | Range (r : SuffixRange)
  | Table (t : LookupTable Suffix SuffixRow)
  deriving DecidableEq

def SuffixSpec.is_valid (s : SuffixSpec) (suffix : Suffix) : Bool :=
  match s with
  | .Empty => suffix.val == 0
  | .Range range => range.contains_suffix suffix
  | .Table table => table.contains_id suffix

def SuffixSpec.find_by_label (s : SuffixSpec) (label : String) : Option Suffix :=
  match s with
  | .Empty => none
  | .Range _ => none
  | .Table table => (table.find_by_label label).map fun r => r.suffix

/-- Row-conversion loop inside `convert_suffixes` (stops at the first
failing row). -/
def convertSuffixRows : List SuffixDef → Except SuffixRowError (List SuffixRow)
  | [] => .ok []
  | d :: ds =>
      match SuffixRow.try_from d with
      | .error e => .error e
      | .ok r =>
          match convertSuffixRows ds with
          | .error e => .error e
          | .ok rs => .ok (r :: rs)

/-- Resolution of a def's optional range and explicit rows into one
`SuffixSpec` (src/specs.rs `convert_suffixes`). -/
def convert_suffixes (range : Option SuffixRangeDef) (suffixes : List SuffixDef) :
    Except ItemError SuffixSpec :=
  match range with
  | some r =>
      if suffixes.isEmpty then
        match SuffixRange.try_from r with
        | .ok rng => .ok (.Range rng)
        | .error e => .error e
      else .error .SuffixesAndRangeDefined
  | none =>
      if suffixes.isEmpty then .ok .Empty
      else
        match convertSuffixRows suffixes with
        | .error e => .error (.InvalidSuffixRow e)
        | .ok rows =>
            match LookupTable.try_from_list rows with
            | .error c => .error (.InvalidSuffixTable c)
            | .ok t => .ok (.Table t)

structure KindSpec where
  label : String
  id : Kind
  suffixes : SuffixSpec
  deriving DecidableEq

instance : HasId Kind KindSpec := ⟨fun s => s.id⟩

instance : Labelled KindSpec := ⟨fun s => s.label⟩

/-- Conversion `TryFrom<KindDef> for KindSpec`; an id failure becomes
`ItemError::InvalidId` carrying the original value. -/
def KindSpec.try_from (def_ : KindDef) : Except ItemError KindSpec :=
  match Kind.try_from def_.id with
  | .error e => .error (.InvalidId e.val)
  | .ok id =>
      match convert_suffixes def_.suffix_range def_.suffixes with
      | .error e => .error e
      | .ok suffixes => .ok ⟨def_.label, id, suffixes⟩

structure PosSpec where
  label : String
  id : Pos
  suffixes : SuffixSpec
  separate : Bool
  ordered : Bool
  hidden : Bool
  deriving DecidableEq

instance : HasId Pos PosSpec := ⟨fun s => s.id⟩

instance : Labelled PosSpec := ⟨fun s => s.label⟩

/-- Conversion `TryFrom<PosDef> for PosSpec`. -/
def PosSpec.try_from (def_ : PosDef) : Except ItemError PosSpec :=
  match Pos.try_from def_.id with
  | .error e => .error (.InvalidId e.val)
  | .ok id =>
      match convert_suffixes def_.suffix_range def_.suffixes with
      | .error e => .error e
      | .ok suffixes =>
          .ok ⟨def_.label, id, suffixes, def_.separate, def_.ordered, def_.hidden⟩

structure GameSpec where
  label : String
  min_players : Nat
  max_players : Nat
  kind_specs : LookupTable Kind KindSpec
  pos_specs : LookupTable Pos PosSpec
  deriving DecidableEq

/-- Narrowing of a `u32` player count to `u8`. -/
def convert_player_num (input : Nat) : Except Error Nat :=
  if input ≤ 255 then .ok input else .error (.InvalidNumPlayers input)

/-- Per-item conversion loop for kind defs, wrapping failures as
`Error::InvalidKind`. -/
def convertKindDefs : List KindDef → Except Error (List KindSpec)
  | [] => .ok []
  | d :: ds =>
      match KindSpec.try_from d with
      | .error e => .error (.InvalidKind e)
      | .ok s =>
          match convertKindDefs ds with
          | .error e => .error e
          | .ok rest => .ok (s :: rest)

/-- Per-item conversion loop for pos defs, wrapping failures as
`Error::InvalidPos`. -/
def convertPosDefs : List PosDef → Except Error (List PosSpec)
  | [] => .ok []
  | d :: ds =>
      match PosSpec.try_from d with
      | .error e => .error (.InvalidPos e)
      | .ok s =>
          match convertPosDefs ds with
          | .error e => .error e
          | .ok rest => .ok (s :: rest)

/-- The compiler `TryFrom<GameDef> for GameSpec`: kinds, then the kind
table, then positions, then the pos table, then the player-count
narrowing (min before max). -/
def GameSpec.try_from (value : GameDef) : Except Error GameSpec :=
  match convertKindDefs value.kind_defs with
  | .error e => .error e
  | .ok kind_list =>
      match LookupTable.try_from_list kind_list with
      | .error c => .error (.InvalidKindTable c)
      | .ok kind_specs =>
          match convertPosDefs value.pos_defs with
          | .error e => .error e
          | .ok pos_list =>
              match LookupTable.try_from_list pos_list with
              | .error c => .error (.InvalidPosTable c)
              | .ok pos_specs =>
                  match convert_player_num value.min_players with
                  | .error e => .error e
                  | .ok min_players =>
                      match convert_player_num value.max_players with
                      | .error e => .error e
                      | .ok max_players =>
                          .ok ⟨value.label, min_players, max_players,
                               kind_specs, pos_specs⟩

/-! ### State store (src/state.rs) -/

/-- One flattened snapshot fact. -/
structure ExportRow where
  pos : QPos
  kind : QKind
  count : Nat
  deriving DecidableEq

/-- Modelled from the spec: the derived `Ord` on `ExportRow` (and on the
`QPos`/`QKind` types, whose source file is not under src/) is the
lexicographic order on fields in declaration order; encode a row as the
list of its components and compare lists lexicographically. -/
def ExportRow.sortKey (r : ExportRow) : List Int :=
  [(r.pos.pos.val : Int), (r.pos.region.val : Int), r.pos.suffix.val,
   (r.kind.kind.val : Int), r.kind.suffix.val, (r.count : Int)]

/-- Boolean total order on export rows, `(QPos, QKind)` first. -/
def ExportRow.le (a b : ExportRow) : Bool :=
  decide (a.sortKey ≤ b.sortKey)

/-- The caller-side re-sort performed after each retrieval
(`actual_rows.sort()` in the source's tests). -/
def sortRows (rows : List ExportRow) : List ExportRow :=
  rows.mergeSort ExportRow.le

/-- Whether a list of rows is sorted under the `ExportRow` ordering. -/
def rowsSorted (rows : List ExportRow) : Prop :=
  List.Pairwise (fun a b => ExportRow.le a b = true) rows

instance rowsSortedDecidable (rows : List ExportRow) : Decidable (rowsSorted rows) :=
  List.instDecidablePairwise rows

/-- Key of the unordered per-region multiset. -/
structure Key where
  pos_suffix : Suffix
  kind : QKind
  deriving DecidableEq

structure UnorderedShard where
  pos : Pos
  region : Region
  counts : List (Key × Nat)
  deriving DecidableEq

def UnorderedShard.new (pos : Pos) (region : Region) : UnorderedShard :=
  ⟨pos, region, []⟩

def UnorderedShard.export_rows (u : UnorderedShard) : List ExportRow :=
  u.counts.map fun e => ⟨⟨u.pos, u.region, e.1.pos_suffix⟩, e.1.kind, e.2⟩

/-- Ordered storage maps a slot suffix to the single occupying kind.  The
source uses a `BTreeMap`; since ordered creation never writes, the map
stays empty in every reachable state and list order is immaterial. -/
structure OrderedShard where
  pos : Pos
  region : Region
  counts : List (Suffix × QKind)
  deriving DecidableEq

def OrderedShard.new (pos : Pos) (region : Region) : OrderedShard :=
  ⟨pos, region, []⟩

def OrderedShard.export_rows (o : OrderedShard) : List ExportRow :=
  o.counts.map fun e => ⟨⟨o.pos, o.region, e.1⟩, e.2, 1⟩

/-- A position's shard: ordered or unordered, partitioned by `Region`. -/
inductive Shard where
  | Ordered (regions : List (Region × OrderedShard))
  | Unordered (regions : List (Region × UnorderedShard))
  deriving DecidableEq

def Shard.isOrdered : Shard → Bool
  | .Ordered _ => true
  | .Unordered _ => false

def Shard.export_rows : Shard → List ExportRow
  | .Ordered rs => (rs.map fun e => e.2.export_rows).flatten
  | .Unordered rs => (rs.map fun e => e.2.export_rows).flatten

structure State where
  shards : List (Pos × Shard)
  deriving DecidableEq

/-- The empty shard allocated for a position by `State::new`. -/
def mkShard (ordered : Bool) : Shard :=
  if ordered then .Ordered [] else .Unordered []

/-- `State::new`: one shard per entry of `spec.pos_specs`, keyed by the
entry's id and typed by its `ordered` flag. -/
def State.new (spec : GameSpec) : State :=
  ⟨spec.pos_specs.values.foldl
    (fun acc e => hmInsert acc e.2.id (mkShard e.2.ordered)) []⟩

/-- `State::export_rows`: walk every shard, every region, every occupied
coordinate, in internal iteration order.  No sort is applied. -/
def State.export_rows (st : State) : List ExportRow :=
  (st.shards.map fun e => e.2.export_rows).flatten

structure CreatePieces where
  pos : QPos
  kind : QKind
  count : Nat
  deriving DecidableEq

inductive Cmd where
  | CreatePieces (c : CreatePieces)
  deriving DecidableEq

/-- `Transaction::create_ordered_pieces`: returns `Ok(())` without
touching the shard. -/
def create_ordered_pieces (_cmd : CreatePieces) (ordered : OrderedShard) :
    OrderedShard :=
  ordered

/-- `Transaction::create_unordered_pieces`: accumulate into an occupied
entry, insert on a vacant one. -/
def create_unordered_pieces (cmd : CreatePieces) (shard : UnorderedShard) :
    UnorderedShard :=
  let key : Key := ⟨cmd.pos.suffix, cmd.kind⟩
  match alookup shard.counts key with
  | some _ => ⟨shard.pos, shard.region, aupdate shard.counts key fun c => c + cmd.count⟩
  | none => ⟨shard.pos, shard.region, shard.counts ++ [(key, cmd.count)]⟩

/-- `Shard::find_or_create_shard_mut` followed by the per-kind create:
the region sub-partition is created on first touch. -/
def Shard.create_pieces_in (sh : Shard) (cmd : CreatePieces) : Shard :=
  match sh with
  | .Ordered rs =>
      match alookup rs cmd.pos.region with
      | some o => .Ordered (aupdate rs cmd.pos.region fun _ => create_ordered_pieces cmd o)
      | none =>
          .Ordered (rs ++ [(cmd.pos.region,
            create_ordered_pieces cmd (OrderedShard.new cmd.pos.pos cmd.pos.region))])
  | .Unordered rs =>
      match alookup rs cmd.pos.region with
      | some _ => .Unordered (aupdate rs cmd.pos.region fun u => create_unordered_pieces cmd u)
      | none =>
          .Unordered (rs ++ [(cmd.pos.region,
            create_unordered_pieces cmd (UnorderedShard.new cmd.pos.pos cmd.pos.region))])

/-- `Transaction::create_pieces`: locate the position's shard (failing
`NoSuchPos` when the spec that built the state declared no such
position), then create within it. -/
def create_pieces (st : State) (cmd : CreatePieces) : Except CmdError State :=
  match alookup st.shards cmd.pos.pos with
  | none => .error (.NoSuchPos cmd.pos.pos)
  | some _ => .ok ⟨aupdate st.shards cmd.pos.pos fun sh => sh.create_pieces_in cmd⟩

/-- `Transaction::apply`, dispatching on the command kind. -/
def applyCmd (st : State) (cmd : Cmd) : Except CmdError State :=
  match cmd with
  | .CreatePieces c => create_pieces st c

/-- Apply one command, keeping the prior state on failure (a failed
`apply` does not mutate). -/
def runCmd (st : State) (cmd : Cmd) : State :=
  match applyCmd st cmd with
  | .ok st2 => st2
  | .error _ => st

/-- Apply a sequence of commands in order. -/
def runCmds (st : State) (cmds : List Cmd) : State :=
  cmds.foldl runCmd st

/-- A state reachable from `State::new` of a spec through command
application. -/
def Reachable (spec : GameSpec) (st : State) : Prop :=
  ∃ cmds : List Cmd, st = runCmds (State.new spec) cmds

/-! ### Well-formedness invariants and observation helpers -/

/-- Well-formedness of a built `LookupTable`: keys are distinct and each
entry is stored under its value's id. -/
def LookupTable.WF {I V : Type} [HasId I V] (t : LookupTable I V) : Prop :=
  (t.values.map Prod.fst).Nodup ∧ ∀ e ∈ t.values, e.1 = HasId.id e.2

instance {I V : Type} [DecidableEq I] [HasId I V] (t : LookupTable I V) :
    Decidable t.WF := by
  unfold LookupTable.WF
  infer_instance

def UnorderedShard.WF (p : Pos) (r : Region) (u : UnorderedShard) : Prop :=
  u.pos = p ∧ u.region = r ∧ (u.counts.map Prod.fst).Nodup

def OrderedShard.WF (p : Pos) (r : Region) (o : OrderedShard) : Prop :=
  o.pos = p ∧ o.region = r ∧ (o.counts.map Prod.fst).Nodup

/-- Per-position shard invariant: region keys are distinct and every
region shard records its own position and region keys. -/
def Shard.WF (p : Pos) : Shard → Prop
  | .Ordered rs => (rs.map Prod.fst).Nodup ∧ ∀ e ∈ rs, OrderedShard.WF p e.1 e.2
  | .Unordered rs => (rs.map Prod.fst).Nodup ∧ ∀ e ∈ rs, UnorderedShard.WF p e.1 e.2

/-- State invariant: position keys are distinct and every shard is
well-formed for its key. -/
def State.WF (st : State) : Prop :=
  (st.shards.map Prod.fst).Nodup ∧ ∀ e ∈ st.shards, Shard.WF e.1 e.2

/-- The stored count at an unordered coordinate within one region map. -/
def regionCount? (rs : List (Region × UnorderedShard)) (q : QPos) (k : QKind) :
    Option Nat :=
  match alookup rs q.region with
  | some u => alookup u.counts ⟨q.suffix, k⟩
  | none => none

/-- The stored count at one unordered coordinate, when present. -/
def countAt? (st : State) (q : QPos) (k : QKind) : Option Nat :=
  match alookup st.shards q.pos with
  | some (.Unordered rs) => regionCount? rs q k
  | _ => none

/-- Whether an export row sits at exactly the queried coordinate pair. -/
def coordMatches (q : QPos) (k : QKind) (row : ExportRow) : Bool :=
  decide (row.pos = q ∧ row.kind = k)

/-! ### Concrete fixtures used by witnesses and counterexamples -/

/-- An unordered position labelled `deck` with id 1. -/
def deckPosSpec : PosSpec := ⟨"deck", ⟨1⟩, .Empty, false, false, false⟩

/-- An ordered position labelled `row` with id 2. -/
def rowPosSpec : PosSpec := ⟨"row", ⟨2⟩, .Empty, false, true, false⟩

/-- A two-position game definition: unordered `deck`, ordered `row`. -/
def gameDef1 : GameDef :=
  ⟨"g", 2, 2, [], [⟨"deck", 1, none, [], false, false, false⟩,
                   ⟨"row", 2, none, [], false, true, false⟩]⟩

/-- The compiled form of `gameDef1`. -/
def gameSpec1 : GameSpec :=
  ⟨"g", 2, 2, ⟨[], []⟩,
   ⟨[(⟨1⟩, deckPosSpec), (⟨2⟩, rowPosSpec)], [("deck", ⟨1⟩), ("row", ⟨2⟩)]⟩⟩

/-- Coordinate of the deck position, region 0, suffix 0. -/
def qDeck : QPos := ⟨⟨1⟩, ⟨0⟩, ⟨0⟩⟩

/-- Coordinate of the ordered row position, region 0, suffix 0. -/
def qRow : QPos := ⟨⟨2⟩, ⟨0⟩, ⟨0⟩⟩

def qHearts : QKind := ⟨⟨1⟩, ⟨1⟩⟩

def qSpades : QKind := ⟨⟨1⟩, ⟨4⟩⟩

/-- Insert spades before hearts at the same position coordinate. -/
def stOutOfOrder : State :=
  runCmds (State.new gameSpec1)
    [.CreatePieces ⟨qDeck, qSpades, 1⟩, .CreatePieces ⟨qDeck, qHearts, 1⟩]

/-- A reachable state whose deck coordinate already holds count 5. -/
def stPre : State :=
  runCmds (State.new gameSpec1) [.CreatePieces ⟨qDeck, qHearts, 5⟩]

def stPre1 : State := runCmd stPre (.CreatePieces ⟨qDeck, qHearts, 1⟩)

def stPre2 : State := runCmd stPre1 (.CreatePieces ⟨qDeck, qHearts, 3⟩)

/-! ### Lemmas about the association-list model -/

section AssocLemmas

variable {K V : Type} [DecidableEq K]

theorem alookup_append (l₁ l₂ : List (K × V)) (k : K) :
    alookup (l₁ ++ l₂) k =
      match alookup l₁ k with
      | some v => some v
      | none => alookup l₂ k := by
  induction l₁ with
  | nil => simp [alookup]
  | cons e rest ih =>
      by_cases h : e.1 = k <;> simp [alookup, h, ih]

theorem alookup_append_right (l : List (K × V)) (k : K) (v : V)
    (h : alookup l k = none) : alookup (l ++ [(k, v)]) k = some v := by
  rw [alookup_append, h]
  simp [alookup]

theorem alookup_isSome_iff_mem (l : List (K × V)) (k : K) :
    (alookup l k).isSome = true ↔ k ∈ l.map Prod.fst := by
  induction l with
  | nil => simp [alookup]
  | cons e rest ih =>
      obtain ⟨k', v⟩ := e
      by_cases h : k' = k
      · subst h
        simp [alookup]
      · rw [List.map_cons, List.mem_cons]
        rw [show alookup ((k', v) :: rest) k = alookup rest k from if_neg h, ih]
        exact Iff.symm (or_iff_right fun hc => h hc.symm)

theorem alookup_mem (l : List (K × V)) (k : K) (v : V)
    (h : alookup l k = some v) : (k, v) ∈ l := by
  induction l with
  | nil => simp [alookup] at h
  | cons e rest ih =>
      obtain ⟨k', v'⟩ := e
      by_cases he : k' = k
      · subst he
        rw [show alookup ((k', v') :: rest) k' = some v' from if_pos rfl] at h
        cases h
        exact List.mem_cons_self _ _
      · rw [show alookup ((k', v') :: rest) k = alookup rest k from if_neg he] at h
        exact List.mem_cons_of_mem _ (ih h)

theorem map_fst_aupdate (l : List (K × V)) (k : K) (f : V → V) :
    (aupdate l k f).map Prod.fst = l.map Prod.fst := by
  induction l with
  | nil => rfl
  | cons e rest ih =>
      by_cases h : e.1 = k <;> simp [aupdate, h, ih]

theorem alookup_aupdate_self (l : List (K × V)) (k : K) (f : V → V) :
    alookup (aupdate l k f) k = (alookup l k).map f := by
  induction l with
  | nil => rfl
  | cons e rest ih =>
      by_cases h : e.1 = k <;> simp [aupdate, alookup, h, ih]

theorem alookup_aupdate_ne (l : List (K × V)) (k k' : K) (f : V → V)
    (h : k' ≠ k) : alookup (aupdate l k f) k' = alookup l k' := by
  induction l with
  | nil => rfl
  | cons e rest ih =>
      obtain ⟨kx, vx⟩ := e
      by_cases he : kx = k
      · subst he
        have hkk : ¬ (kx = k') := fun hc => h hc.symm
        simp [aupdate, alookup, hkk]
      · by_cases he' : kx = k' <;> simp [aupdate, alookup, he, he', h, ih]

theorem mem_aupdate (l : List (K × V)) (k : K) (f : V → V) (e : K × V)
    (h : e ∈ aupdate l k f) :
    e ∈ l ∨ (e.1 = k ∧ ∃ v, alookup l k = some v ∧ e.2 = f v) := by
  induction l with
  | nil => simp [aupdate] at h
  | cons x rest ih =>
      obtain ⟨kx, vx⟩ := x
      by_cases hx : kx = k
      · subst hx
        rw [show aupdate ((kx, vx) :: rest) kx f = (kx, f vx) :: rest from if_pos rfl] at h
        rcases List.mem_cons.mp h with h | h
        · subst h
          exact Or.inr ⟨rfl, vx, by simp [alookup], rfl⟩
        · exact Or.inl (List.mem_cons_of_mem _ h)
      · rw [show aupdate ((kx, vx) :: rest) k f = (kx, vx) :: aupdate rest k f
            from if_neg hx] at h
        rcases List.mem_cons.mp h with h | h
        · exact Or.inl (by simp [h])
        · rcases ih h with h' | ⟨h1, v, h2, h3⟩
          · exact Or.inl (List.mem_cons_of_mem _ h')
          · exact Or.inr ⟨h1, v, by simp [alookup, hx, h2], h3⟩

theorem aupdate_of_fix (l : List (K × V)) (k : K) (f : V → V)
    (h : ∀ v, alookup l k = some v → f v = v) : aupdate l k f = l := by
  induction l with
  | nil => rfl
  | cons e rest ih =>
      obtain ⟨kx, vx⟩ := e
      by_cases he : kx = k
      · subst he
        have hfix := h vx (by simp [alookup])
        rw [show aupdate ((kx, vx) :: rest) kx f = (kx, f vx) :: rest from if_pos rfl, hfix]
      · rw [show aupdate ((kx, vx) :: rest) k f = (kx, vx) :: aupdate rest k f
            from if_neg he]
        rw [ih (fun v hv => h v (by simp [alookup, he, hv]))]

theorem hmInsert_of_not_mem (l : List (K × V)) (k : K) (v : V)
    (h : k ∉ l.map Prod.fst) : hmInsert l k v = l ++ [(k, v)] := by
  induction l with
  | nil => rfl
  | cons e rest ih =>
      obtain ⟨kx, vx⟩ := e
      rw [List.map_cons, List.mem_cons, not_or] at h
      rw [show hmInsert ((kx, vx) :: rest) k v = (kx, vx) :: hmInsert rest k v
          from if_neg fun hc => h.1 hc.symm]
      rw [ih h.2, List.cons_append]

theorem mem_map_fst_hmInsert (l : List (K × V)) (k k' : K) (v : V) :
    k' ∈ (hmInsert l k v).map Prod.fst ↔ k' = k ∨ k' ∈ l.map Prod.fst := by
  induction l with
  | nil => simp [hmInsert]
  | cons e rest ih =>
      obtain ⟨kx, vx⟩ := e
      by_cases h : kx = k
      · subst h
        rw [show hmInsert ((kx, vx) :: rest) kx v = (kx, v) :: rest from if_pos rfl]
        simp
      · rw [show hmInsert ((kx, vx) :: rest) k v = (kx, vx) :: hmInsert rest k v
            from if_neg h]
        rw [List.map_cons, List.mem_cons, ih, List.map_cons, List.mem_cons]
        tauto

end AssocLemmas

/-! ### Registry and suffix-resolution lemmas -/

theorem convertSuffixRows_eq (xs : List SuffixDef) :
    convertSuffixRows xs = .ok (xs.map fun x => ⟨⟨u32_as_i32 x.id⟩, x.label⟩) := by
  induction xs with
  | nil => rfl
  | cons d ds ih => simp [convertSuffixRows, SuffixRow.try_from, ih]

theorem pushAll_append {I V : Type} [DecidableEq I] [HasId I V] [Labelled V]
    (xs ys : List V) (t : LookupTable I V) :
    LookupTable.pushAll t (xs ++ ys) =
      match LookupTable.pushAll t xs with
      | .ok t2 => LookupTable.pushAll t2 ys
      | .error c => .error c := by
  induction xs generalizing t with
  | nil => simp [LookupTable.pushAll]
  | cons x rest ih =>
      rw [List.cons_append]
      rw [show LookupTable.pushAll t (x :: (rest ++ ys)) =
          match t.push x with
          | .error c => .error c
          | .ok t2 => t2.pushAll (rest ++ ys) from rfl]
      rw [show LookupTable.pushAll t (x :: rest) =
          match t.push x with
          | .error c => .error c
          | .ok t2 => t2.pushAll rest from rfl]
      cases t.push x with
      | error c => rfl
      | ok t2 => exact ih t2

theorem nodup_keys_append_fresh {K V : Type} [DecidableEq K]
    (l : List (K × V)) (k : K) (v : V)
    (hn : (l.map Prod.fst).Nodup) (h : alookup l k = none) :
    ((l ++ [(k, v)]).map Prod.fst).Nodup := by
  have hk : k ∉ l.map Prod.fst := by
    intro hm
    rw [← alookup_isSome_iff_mem, h] at hm
    cases hm
  rw [List.map_append]
  rw [show (l.map Prod.fst) ++ [(k, v)].map Prod.fst = (l.map Prod.fst).concat k
      from by simp [List.concat_eq_append]]
  exact List.Nodup.concat hk hn

theorem alookup_map_entry {K V W : Type} [DecidableEq K]
    (l : List (K × V)) (g : V → W) (k : K) :
    alookup (l.map fun e => (e.1, g e.2)) k = (alookup l k).map g := by
  induction l with
  | nil => rfl
  | cons e rest ih =>
      obtain ⟨kx, vx⟩ := e
      by_cases h : kx = k <;> simp [alookup, h, ih]

theorem push_ok {I V : Type} [DecidableEq I] [HasId I V] [Labelled V]
    (t t2 : LookupTable I V) (v : V) (h : t.push v = .ok t2) :
    alookup t.values (HasId.id v) = none ∧
    t2.values = t.values ++ [(HasId.id v, v)] ∧
    t2.label_index = t.label_index ++ [(Labelled.label v, HasId.id v)] := by
  by_cases h1 : (alookup t.values (HasId.id v)).isSome = true
  · rw [LookupTable.push, if_pos h1] at h
    cases h
  · by_cases h2 : (alookup t.label_index (Labelled.label v)).isSome = true
    · rw [LookupTable.push, if_neg h1, if_pos h2] at h
      cases h
    · rw [LookupTable.push, if_neg h1, if_neg h2] at h
      cases h
      exact ⟨Option.not_isSome_iff_eq_none.mp h1, rfl, rfl⟩

theorem pushAll_WF {I V : Type} [DecidableEq I] [HasId I V] [Labelled V]
    (vs : List V) : ∀ (t t2 : LookupTable I V), t.WF →
    LookupTable.pushAll t vs = .ok t2 → t2.WF := by
  induction vs with
  | nil =>
      intro t t2 hwf h
      cases h
      exact hwf
  | cons v rest ih =>
      intro t t2 hwf h
      rw [show LookupTable.pushAll t (v :: rest) =
          match t.push v with
          | .error c => .error c
          | .ok tm => tm.pushAll rest from rfl] at h
      rcases hp : t.push v with c | tm
      · rw [hp] at h
        cases h
      · rw [hp] at h
        obtain ⟨hid, hv, _⟩ := push_ok t tm v hp
        refine ih tm t2 ⟨?_, ?_⟩ h
        · rw [hv]
          exact nodup_keys_append_fresh _ _ _ hwf.1 hid
        · intro e he
          rw [hv] at he
          rcases List.mem_append.mp he with he | he
          · exact hwf.2 e he
          · simp only [List.mem_singleton] at he
            subst he
            rfl

theorem try_from_list_WF {I V : Type} [DecidableEq I] [HasId I V] [Labelled V]
    (vs : List V) (t : LookupTable I V)
    (h : LookupTable.try_from_list vs = .ok t) : t.WF :=
  pushAll_WF vs LookupTable.empty t ⟨List.nodup_nil, by simp [LookupTable.empty]⟩ h

theorem gamespec_pos_table_WF (d : GameDef) (spec : GameSpec)
    (h : GameSpec.try_from d = .ok spec) : spec.pos_specs.WF := by
  rw [GameSpec.try_from] at h
  rcases h1 : convertKindDefs d.kind_defs with e | kl <;> simp only [h1] at h
  · cases h
  rcases h2 : LookupTable.try_from_list kl with c | kt <;> simp only [h2] at h
  · cases h
  rcases h3 : convertPosDefs d.pos_defs with e | pl <;> simp only [h3] at h
  · cases h
  rcases h4 : LookupTable.try_from_list pl with c | pt <;> simp only [h4] at h
  · cases h
  rcases h5 : convert_player_num d.min_players with e | mn <;> simp only [h5] at h
  · cases h
  rcases h6 : convert_player_num d.max_players with e | mx <;> simp only [h6] at h
  · cases h
  cases h
  exact try_from_list_WF pl pt h4

theorem foldl_hmInsert_eq {K V A : Type} [DecidableEq K] (f : A → K) (g : A → V) :
    ∀ (xs : List A) (acc : List (K × V)), (xs.map f).Nodup →
      (∀ x ∈ xs, f x ∉ acc.map Prod.fst) →
      xs.foldl (fun a x => hmInsert a (f x) (g x)) acc =
        acc ++ xs.map (fun x => (f x, g x)) := by
  intro xs
  induction xs with
  | nil =>
      intro acc _ _
      simp
  | cons x rest ih =>
      intro acc hn hf
      rw [List.foldl_cons, hmInsert_of_not_mem _ _ _ (hf x (by simp))]
      rw [List.map_cons, List.nodup_cons] at hn
      rw [ih (acc ++ [(f x, g x)]) hn.2 ?_]
      · simp
      · intro y hy
        rw [List.map_append, List.mem_append, not_or]
        refine ⟨hf y (List.mem_cons_of_mem _ hy), ?_⟩
        simp only [List.map_cons, List.map_nil, List.mem_singleton]
        intro hc
        exact hn.1 (hc ▸ List.mem_map_of_mem f hy)

theorem State.new_shards (spec : GameSpec) (h : spec.pos_specs.WF) :
    (State.new spec).shards =
      spec.pos_specs.values.map (fun e => (e.1, mkShard e.2.ordered)) := by
  have hnd : (spec.pos_specs.values.map fun (e : Pos × PosSpec) => e.2.id).Nodup := by
    have hkeys : spec.pos_specs.values.map (fun (e : Pos × PosSpec) => e.2.id) =
        spec.pos_specs.values.map Prod.fst :=
      List.map_congr_left fun e he => (h.2 e he).symm
    rw [hkeys]
    exact h.1
  have heq := foldl_hmInsert_eq (fun (e : Pos × PosSpec) => e.2.id)
    (fun e => mkShard e.2.ordered) spec.pos_specs.values [] hnd (by simp)
  refine Eq.trans (show (State.new spec).shards = _ from rfl) (heq.trans ?_)
  rw [List.nil_append]
  refine List.map_congr_left fun e he => ?_
  rw [h.2 e he]
  rfl

theorem State.new_alookup (spec : GameSpec) (h : spec.pos_specs.WF) (p : Pos) :
    alookup (State.new spec).shards p =
      (alookup spec.pos_specs.values p).map fun ps => mkShard ps.ordered := by
  rw [State.new_shards spec h]
  exact alookup_map_entry spec.pos_specs.values (fun ps => mkShard ps.ordered) p

theorem create_pieces_none (st : State) (c : CreatePieces)
    (h : alookup st.shards c.pos.pos = none) :
    create_pieces st c = .error (.NoSuchPos c.pos.pos) := by
  unfold create_pieces
  rw [h]

theorem create_pieces_some (st : State) (c : CreatePieces) (sh : Shard)
    (h : alookup st.shards c.pos.pos = some sh) :
    create_pieces st c =
      .ok ⟨aupdate st.shards c.pos.pos fun s => s.create_pieces_in c⟩ := by
  unfold create_pieces
  rw [h]

theorem runCmd_keys (st : State) (cmd : Cmd) :
    (runCmd st cmd).shards.map Prod.fst = st.shards.map Prod.fst := by
  rcases cmd with ⟨c⟩
  rcases h : alookup st.shards c.pos.pos with _ | sh
  · rw [runCmd, applyCmd, create_pieces_none st c h]
  · rw [runCmd, applyCmd, create_pieces_some st c sh h]
    exact map_fst_aupdate _ _ _

theorem runCmds_keys (cmds : List Cmd) : ∀ st : State,
    (runCmds st cmds).shards.map Prod.fst = st.shards.map Prod.fst := by
  induction cmds with
  | nil => intro st; rfl
  | cons cmd rest ih =>
      intro st
      rw [runCmds, List.foldl_cons]
      exact (ih (runCmd st cmd)).trans (runCmd_keys st cmd)

theorem create_pieces_in_isOrdered (sh : Shard) (c : CreatePieces) :
    (sh.create_pieces_in c).isOrdered = sh.isOrdered := by
  cases sh with
  | Ordered rs =>
      rcases h : alookup rs c.pos.region with _ | o <;>
        simp [Shard.create_pieces_in, h, Shard.isOrdered]
  | Unordered rs =>
      rcases h : alookup rs c.pos.region with _ | u <;>
        simp [Shard.create_pieces_in, h, Shard.isOrdered]

theorem runCmd_tag (st : State) (cmd : Cmd) (p : Pos) :
    (alookup (runCmd st cmd).shards p).map Shard.isOrdered =
      (alookup st.shards p).map Shard.isOrdered := by
  rcases cmd with ⟨c⟩
  rcases h : alookup st.shards c.pos.pos with _ | sh
  · rw [runCmd, applyCmd, create_pieces_none st c h]
  · rw [runCmd, applyCmd, create_pieces_some st c sh h]
    by_cases hp : p = c.pos.pos
    · subst hp
      show (alookup (aupdate st.shards c.pos.pos fun s => s.create_pieces_in c)
          c.pos.pos).map Shard.isOrdered = _
      rw [alookup_aupdate_self, h]
      simp [create_pieces_in_isOrdered]
    · show (alookup (aupdate st.shards c.pos.pos fun s => s.create_pieces_in c) p).map
          Shard.isOrdered = _
      rw [alookup_aupdate_ne _ _ _ _ hp]

theorem runCmds_tag (cmds : List Cmd) : ∀ (st : State) (p : Pos),
    (alookup (runCmds st cmds).shards p).map Shard.isOrdered =
      (alookup st.shards p).map Shard.isOrdered := by
  induction cmds with
  | nil => intro st p; rfl
  | cons cmd rest ih =>
      intro st p
      rw [runCmds, List.foldl_cons]
      exact (ih (runCmd st cmd) p).trans (runCmd_tag st cmd p)

theorem hmInsert_nodup_keys {K V : Type} [DecidableEq K] (l : List (K × V))
    (k : K) (v : V) (h : (l.map Prod.fst).Nodup) :
    ((hmInsert l k v).map Prod.fst).Nodup := by
  induction l with
  | nil => simp [hmInsert]
  | cons e rest ih =>
      obtain ⟨kx, vx⟩ := e
      rw [List.map_cons, List.nodup_cons] at h
      by_cases he : kx = k
      · subst he
        rw [show hmInsert ((kx, vx) :: rest) kx v = (kx, v) :: rest from if_pos rfl]
        rw [List.map_cons, List.nodup_cons]
        exact h
      · rw [show hmInsert ((kx, vx) :: rest) k v = (kx, vx) :: hmInsert rest k v
            from if_neg he]
        rw [List.map_cons, List.nodup_cons]
        refine ⟨?_, ih h.2⟩
        intro hc
        rcases (mem_map_fst_hmInsert rest k kx v).mp hc with hc | hc
        · exact he hc
        · exact h.1 hc

theorem mem_hmInsert {K V : Type} [DecidableEq K] (l : List (K × V))
    (k : K) (v : V) (e : K × V) (h : e ∈ hmInsert l k v) :
    e ∈ l ∨ e = (k, v) := by
  induction l with
  | nil => simpa [hmInsert] using h
  | cons x rest ih =>
      obtain ⟨kx, vx⟩ := x
      by_cases hx : kx = k
      · subst hx
        rw [show hmInsert ((kx, vx) :: rest) kx v = (kx, v) :: rest from if_pos rfl] at h
        rcases List.mem_cons.mp h with h | h
        · exact Or.inr h
        · exact Or.inl (List.mem_cons_of_mem _ h)
      · rw [show hmInsert ((kx, vx) :: rest) k v = (kx, vx) :: hmInsert rest k v
            from if_neg hx] at h
        rcases List.mem_cons.mp h with h | h
        · exact Or.inl (by simp [h])
        · rcases ih h with h | h
          · exact Or.inl (List.mem_cons_of_mem _ h)
          · exact Or.inr h

theorem mkShard_WF (p : Pos) (b : Bool) : Shard.WF p (mkShard b) := by
  cases b <;> simp [mkShard, Shard.WF]

theorem State.new_WF (spec : GameSpec) : (State.new spec).WF := by
  suffices hgen : ∀ (xs : List (Pos × PosSpec)) (acc : List (Pos × Shard)),
      (acc.map Prod.fst).Nodup → (∀ e ∈ acc, Shard.WF e.1 e.2) →
      ((xs.foldl (fun a e => hmInsert a e.2.id (mkShard e.2.ordered)) acc).map
          Prod.fst).Nodup ∧
      (∀ e ∈ xs.foldl (fun a e => hmInsert a e.2.id (mkShard e.2.ordered)) acc,
          Shard.WF e.1 e.2) by
    exact hgen spec.pos_specs.values [] (by simp) (by simp)
  intro xs
  induction xs with
  | nil =>
      intro acc h1 h2
      exact ⟨h1, h2⟩
  | cons x rest ih =>
      intro acc h1 h2
      rw [List.foldl_cons]
      refine ih _ (hmInsert_nodup_keys _ _ _ h1) ?_
      intro e he
      rcases mem_hmInsert _ _ _ _ he with he | he
      · exact h2 e he
      · subst he
        exact mkShard_WF _ _

theorem UnorderedShard.WF_create (p : Pos) (r : Region) (u : UnorderedShard)
    (c : CreatePieces) (h : UnorderedShard.WF p r u) :
    UnorderedShard.WF p r (create_unordered_pieces c u) := by
  obtain ⟨h1, h2, h3⟩ := h
  simp only [create_unordered_pieces]
  rcases hk : alookup u.counts ⟨c.pos.suffix, c.kind⟩ with _ | n
  · exact ⟨h1, h2, nodup_keys_append_fresh _ _ _ h3 hk⟩
  · refine ⟨h1, h2, ?_⟩
    rw [map_fst_aupdate]
    exact h3

theorem ordered_region_present_noop (rs : List (Region × OrderedShard))
    (c : CreatePieces) (o : OrderedShard) (h : alookup rs c.pos.region = some o) :
    Shard.create_pieces_in (.Ordered rs) c = .Ordered rs := by
  simp only [Shard.create_pieces_in, h]
  rw [aupdate_of_fix rs c.pos.region _ (fun v hv => by
    rw [h] at hv
    cases hv
    rfl)]

theorem Shard.WF_create_pieces_in (sh : Shard) (c : CreatePieces)
    (h : Shard.WF c.pos.pos sh) : Shard.WF c.pos.pos (sh.create_pieces_in c) := by
  cases sh with
  | Ordered rs =>
      rcases hr : alookup rs c.pos.region with _ | o
      · simp only [Shard.create_pieces_in, hr]
        refine ⟨nodup_keys_append_fresh _ _ _ h.1 hr, ?_⟩
        intro e he
        rcases List.mem_append.mp he with he | he
        · exact h.2 e he
        · simp only [List.mem_singleton] at he
          subst he
          exact ⟨rfl, rfl, List.nodup_nil⟩
      · rw [ordered_region_present_noop rs c o hr]
        exact h
  | Unordered rs =>
      rcases hr : alookup rs c.pos.region with _ | u
      · simp only [Shard.create_pieces_in, hr]
        refine ⟨nodup_keys_append_fresh _ _ _ h.1 hr, ?_⟩
        intro e he
        rcases List.mem_append.mp he with he | he
        · exact h.2 e he
        · simp only [List.mem_singleton] at he
          subst he
          exact UnorderedShard.WF_create _ _ _ _ ⟨rfl, rfl, List.nodup_nil⟩
      · simp only [Shard.create_pieces_in, hr]
        refine ⟨by rw [map_fst_aupdate]; exact h.1, ?_⟩
        intro e he
        rcases mem_aupdate _ _ _ _ he with he | ⟨he1, v, hv, he2⟩
        · exact h.2 e he
        · rw [hr] at hv
          cases hv
          obtain ⟨e1, e2⟩ := e
          simp only at he1 he2
          subst he1
          subst he2
          exact UnorderedShard.WF_create _ _ _ _
            (h.2 (c.pos.region, u) (alookup_mem _ _ _ hr))

theorem runCmd_WF (st : State) (cmd : Cmd) (h : st.WF) : (runCmd st cmd).WF := by
  rcases cmd with ⟨c⟩
  rcases hsh : alookup st.shards c.pos.pos with _ | sh
  · rw [runCmd, applyCmd, create_pieces_none st c hsh]
    exact h
  · rw [runCmd, applyCmd, create_pieces_some st c sh hsh]
    constructor
    · show ((aupdate st.shards c.pos.pos fun s => s.create_pieces_in c).map
          Prod.fst).Nodup
      rw [map_fst_aupdate]
      exact h.1
    · intro e he
      rcases mem_aupdate _ _ _ _ he with he | ⟨he1, v, hv, he2⟩
      · exact h.2 e he
      · rw [hsh] at hv
        cases hv
        obtain ⟨e1, e2⟩ := e
        simp only at he1 he2
        subst he1
        subst he2
        exact Shard.WF_create_pieces_in sh c (h.2 (c.pos.pos, sh) (alookup_mem _ _ _ hsh))

theorem runCmds_WF (cmds : List Cmd) : ∀ st : State, st.WF → (runCmds st cmds).WF := by
  induction cmds with
  | nil => intro st h; exact h
  | cons cmd rest ih =>
      intro st h
      rw [runCmds, List.foldl_cons]
      exact ih (runCmd st cmd) (runCmd_WF st cmd h)

theorem filter_flatten_nil {α : Type} (p : α → Bool) (L : List (List α))
    (h : ∀ l ∈ L, l.filter p = []) : L.flatten.filter p = [] := by
  induction L with
  | nil => rfl
  | cons l rest ih =>
      rw [List.flatten_cons, List.filter_append, h l (by simp), List.nil_append]
      exact ih fun l' hl' => h l' (List.mem_cons_of_mem _ hl')

theorem coordMatches_false_of_ne_pos (q : QPos) (k : QKind) (row : ExportRow)
    (h : row.pos.pos ≠ q.pos) : coordMatches q k row = false := by
  simp only [coordMatches, decide_eq_false_iff_not]
  rintro ⟨h1, _⟩
  exact h (by rw [h1])

theorem coordMatches_false_of_ne_region (q : QPos) (k : QKind) (row : ExportRow)
    (h : row.pos.region ≠ q.region) : coordMatches q k row = false := by
  simp only [coordMatches, decide_eq_false_iff_not]
  rintro ⟨h1, _⟩
  exact h (by rw [h1])

theorem shard_export_mem_pos (p : Pos) (sh : Shard) (h : Shard.WF p sh)
    (row : ExportRow) (hrow : row ∈ sh.export_rows) : row.pos.pos = p := by
  cases sh with
  | Ordered rs =>
      rw [Shard.export_rows] at hrow
      rcases List.mem_flatten.mp hrow with ⟨l, hl, hrl⟩
      rcases List.mem_map.mp hl with ⟨e, he, rfl⟩
      rcases List.mem_map.mp hrl with ⟨c, _, rfl⟩
      exact (h.2 e he).1
  | Unordered rs =>
      rw [Shard.export_rows] at hrow
      rcases List.mem_flatten.mp hrow with ⟨l, hl, hrl⟩
      rcases List.mem_map.mp hl with ⟨e, he, rfl⟩
      rcases List.mem_map.mp hrl with ⟨c, _, rfl⟩
      exact (h.2 e he).1

theorem filter_shard_ne_pos (q : QPos) (k : QKind) (p : Pos) (sh : Shard)
    (h : Shard.WF p sh) (hne : p ≠ q.pos) :
    (sh.export_rows).filter (coordMatches q k) = [] :=
  List.filter_eq_nil_iff.mpr fun row hrow => by
    rw [coordMatches_false_of_ne_pos q k row (by
      rw [shard_export_mem_pos p sh h row hrow]
      exact hne)]
    simp

theorem filter_unordered_region_ne (q : QPos) (k : QKind) (u : UnorderedShard)
    (hne : u.region ≠ q.region) :
    (u.export_rows).filter (coordMatches q k) = [] :=
  List.filter_eq_nil_iff.mpr fun row hrow => by
    rcases List.mem_map.mp hrow with ⟨c, _, rfl⟩
    rw [coordMatches_false_of_ne_region q k _ hne]
    simp

theorem filter_counts_eq (q : QPos) (k : QKind) :
    ∀ cs : List (Key × Nat), (cs.map Prod.fst).Nodup →
    ((cs.map fun e =>
        ExportRow.mk ⟨q.pos, q.region, e.1.pos_suffix⟩ e.1.kind e.2).filter
      (coordMatches q k)) =
      (match alookup cs ⟨q.suffix, k⟩ with
       | none => []
       | some n => [⟨q, k, n⟩]) := by
  obtain ⟨qp, qr, qs⟩ := q
  intro cs
  induction cs with
  | nil => intro _; rfl
  | cons e rest ih =>
      intro hnd
      obtain ⟨⟨s0, k0⟩, n0⟩ := e
      rw [List.map_cons, List.nodup_cons] at hnd
      rw [List.map_cons, List.filter_cons]
      by_cases hkey : (⟨s0, k0⟩ : Key) = (⟨qs, k⟩ : Key)
      · rw [Key.mk.injEq] at hkey
        obtain ⟨rfl, rfl⟩ := hkey
        rw [if_pos (by simp [coordMatches])]
        rw [show alookup ((⟨⟨s0, k0⟩, n0⟩ : Key × Nat) :: rest) ⟨s0, k0⟩ = some n0
            from if_pos rfl]
        have hrest : ((rest.map fun e =>
            ExportRow.mk ⟨qp, qr, e.1.pos_suffix⟩ e.1.kind e.2).filter
              (coordMatches ⟨qp, qr, s0⟩ k0)) = [] := by
          refine List.filter_eq_nil_iff.mpr fun row hrow => ?_
          rcases List.mem_map.mp hrow with ⟨⟨⟨cps, ckd⟩, cn⟩, hc, rfl⟩
          intro hm
          simp only [coordMatches, decide_eq_true_eq] at hm
          obtain ⟨hm1, hm2⟩ := hm
          have hm3 : cps = s0 := congrArg QPos.suffix hm1
          have hmem : (⟨cps, ckd⟩ : Key) ∈ rest.map Prod.fst :=
            List.mem_map.mpr ⟨_, hc, rfl⟩
          rw [hm3, hm2] at hmem
          exact hnd.1 hmem
        rw [hrest]
      · rw [if_neg (by
          intro hm
          simp only [coordMatches, decide_eq_true_eq] at hm
          obtain ⟨hm1, hm2⟩ := hm
          exact hkey (by
            rw [Key.mk.injEq]
            exact ⟨congrArg QPos.suffix hm1, hm2⟩))]
        rw [show alookup ((⟨⟨s0, k0⟩, n0⟩ : Key × Nat) :: rest) ⟨qs, k⟩ =
            alookup rest ⟨qs, k⟩ from if_neg hkey]
        exact ih hnd.2

theorem filter_unordered_shard (q : QPos) (k : QKind) :
    ∀ rs : List (Region × UnorderedShard),
    (rs.map Prod.fst).Nodup → (∀ e ∈ rs, UnorderedShard.WF q.pos e.1 e.2) →
    ((Shard.Unordered rs).export_rows).filter (coordMatches q k) =
      (match regionCount? rs q k with
       | none => []
       | some n => [⟨q, k, n⟩]) := by
  intro rs
  induction rs with
  | nil => intro _ _; rfl
  | cons e rest ih =>
      intro hnd hWF
      obtain ⟨r0, u0⟩ := e
      rw [List.map_cons, List.nodup_cons] at hnd
      rw [show (Shard.Unordered ((r0, u0) :: rest)).export_rows =
          u0.export_rows ++ ((rest.map fun e => e.2.export_rows).flatten) from by
        rw [Shard.export_rows, List.map_cons, List.flatten_cons]]
      rw [List.filter_append]
      have hu0 := hWF (r0, u0) (List.mem_cons_self _ _)
      by_cases hr : r0 = q.region
      · subst hr
        rw [show regionCount? ((q.region, u0) :: rest) q k =
            alookup u0.counts ⟨q.suffix, k⟩ from by
          unfold regionCount?
          rw [show alookup (((q.region, u0) : Region × UnorderedShard) :: rest)
              q.region = some u0 from if_pos rfl]]
        have hrest : ((rest.map fun e => e.2.export_rows).flatten).filter
            (coordMatches q k) = [] := by
          refine filter_flatten_nil _ _ fun lx hlx => ?_
          rcases List.mem_map.mp hlx with ⟨e, he, rfl⟩
          have hne : e.1 ≠ q.region := fun hc =>
            hnd.1 (by
              show q.region ∈ List.map Prod.fst rest
              rw [← hc]
              exact List.mem_map_of_mem Prod.fst he)
          refine filter_unordered_region_ne q k e.2 ?_
          rw [(hWF e (List.mem_cons_of_mem _ he)).2.1]
          exact hne
        rw [hrest, List.append_nil]
        rw [show u0.export_rows = u0.counts.map fun e =>
            ExportRow.mk ⟨q.pos, q.region, e.1.pos_suffix⟩ e.1.kind e.2 from by
          rw [UnorderedShard.export_rows, hu0.1, hu0.2.1]]
        exact filter_counts_eq q k u0.counts hu0.2.2
      · rw [show regionCount? ((r0, u0) :: rest) q k = regionCount? rest q k from by
          unfold regionCount?
          rw [show alookup (((r0, u0) : Region × UnorderedShard) :: rest) q.region =
              alookup rest q.region from if_neg hr]]
        rw [filter_unordered_region_ne q k u0 (by rw [hu0.2.1]; exact hr),
          List.nil_append]
        exact ih hnd.2 fun e he => hWF e (List.mem_cons_of_mem _ he)

theorem filter_export_list (q : QPos) (k : QKind)
    (rs : List (Region × UnorderedShard)) :
    ∀ l : List (Pos × Shard),
    (l.map Prod.fst).Nodup → (∀ e ∈ l, Shard.WF e.1 e.2) →
    alookup l q.pos = some (.Unordered rs) →
    (((l.map fun e => e.2.export_rows).flatten).filter (coordMatches q k)) =
      (match regionCount? rs q k with
       | none => []
       | some n => [⟨q, k, n⟩]) := by
  intro l
  induction l with
  | nil =>
      intro _ _ h
      simp [alookup] at h
  | cons e rest ih =>
      intro h1 h2 hsh
      obtain ⟨p0, sh0⟩ := e
      rw [List.map_cons, List.nodup_cons] at h1
      rw [List.map_cons, List.flatten_cons, List.filter_append]
      by_cases hp : p0 = q.pos
      · subst hp
        rw [show alookup (((q.pos, sh0) : Pos × Shard) :: rest) q.pos = some sh0
            from if_pos rfl] at hsh
        cases hsh
        have hrest : ((rest.map fun e => e.2.export_rows).flatten).filter
            (coordMatches q k) = [] := by
          refine filter_flatten_nil _ _ fun lx hlx => ?_
          rcases List.mem_map.mp hlx with ⟨e, he, rfl⟩
          refine filter_shard_ne_pos q k e.1 e.2 (h2 e (List.mem_cons_of_mem _ he)) ?_
          intro hc
          refine h1.1 (by
            show q.pos ∈ List.map Prod.fst rest
            rw [← hc]
            exact List.mem_map_of_mem Prod.fst he)
        rw [hrest, List.append_nil]
        have hw := h2 (q.pos, .Unordered rs) (List.mem_cons_self _ _)
        exact filter_unordered_shard q k rs hw.1 hw.2
      · rw [show alookup (((p0, sh0) : Pos × Shard) :: rest) q.pos =
            alookup rest q.pos from if_neg hp] at hsh
        rw [filter_shard_ne_pos q k p0 sh0 (h2 _ (List.mem_cons_self _ _)) hp,
          List.nil_append]
        exact ih h1.2 (fun e he => h2 e (List.mem_cons_of_mem _ he)) hsh

theorem apply_unordered_count (st : State) (q : QPos) (k : QKind) (cnt : Nat)
    (rs : List (Region × UnorderedShard))
    (hsh : alookup st.shards q.pos = some (.Unordered rs)) :
    ∃ st2 rs2, applyCmd st (.CreatePieces ⟨q, k, cnt⟩) = .ok st2 ∧
      runCmd st (.CreatePieces ⟨q, k, cnt⟩) = st2 ∧
      alookup st2.shards q.pos = some (.Unordered rs2) ∧
      countAt? st2 q k = some ((countAt? st q k).getD 0 + cnt) := by
  have happly : applyCmd st (.CreatePieces ⟨q, k, cnt⟩) =
      .ok ⟨aupdate st.shards q.pos fun s => s.create_pieces_in ⟨q, k, cnt⟩⟩ := by
    rw [applyCmd]
    exact create_pieces_some st ⟨q, k, cnt⟩ _ hsh
  have hrun : runCmd st (.CreatePieces ⟨q, k, cnt⟩) =
      ⟨aupdate st.shards q.pos fun s => s.create_pieces_in ⟨q, k, cnt⟩⟩ := by
    rw [runCmd, happly]
  have hlook : alookup (aupdate st.shards q.pos
      fun s => s.create_pieces_in ⟨q, k, cnt⟩) q.pos =
      some ((Shard.Unordered rs).create_pieces_in ⟨q, k, cnt⟩) := by
    rw [alookup_aupdate_self, hsh]
    rfl
  rcases hreg : alookup rs q.region with _ | u
  · -- region created on first touch; prior count absent
    have hshape : (Shard.Unordered rs).create_pieces_in ⟨q, k, cnt⟩ =
        .Unordered (rs ++ [(q.region,
          create_unordered_pieces ⟨q, k, cnt⟩
            (UnorderedShard.new q.pos q.region))]) := by
      simp only [Shard.create_pieces_in, hreg]
    have hc0 : countAt? st q k = none := by
      unfold countAt?
      rw [hsh]
      show regionCount? rs q k = none
      unfold regionCount?
      rw [hreg]
    refine ⟨_, rs ++ [(q.region, create_unordered_pieces ⟨q, k, cnt⟩
      (UnorderedShard.new q.pos q.region))], happly, hrun, ?_, ?_⟩
    · show alookup (aupdate st.shards q.pos
        fun s => s.create_pieces_in ⟨q, k, cnt⟩) q.pos = _
      rw [hlook, hshape]
    · rw [hc0]
      unfold countAt?
      show (match alookup (aupdate st.shards q.pos
          fun s => s.create_pieces_in ⟨q, k, cnt⟩) q.pos with
        | some (.Unordered rs) => regionCount? rs q k
        | _ => none) = _
      rw [hlook, hshape]
      show regionCount? (rs ++ [(q.region,
        create_unordered_pieces ⟨q, k, cnt⟩ (UnorderedShard.new q.pos q.region))])
        q k = _
      unfold regionCount?
      rw [alookup_append_right _ _ _ hreg]
      show alookup (create_unordered_pieces ⟨q, k, cnt⟩
        (UnorderedShard.new q.pos q.region)).counts ⟨q.suffix, k⟩ = _
      rw [show (create_unordered_pieces ⟨q, k, cnt⟩
          (UnorderedShard.new q.pos q.region)).counts =
        [((⟨q.suffix, k⟩ : Key), cnt)] from rfl]
      rw [show alookup [((⟨q.suffix, k⟩ : Key), cnt)] ⟨q.suffix, k⟩ = some cnt
          from if_pos rfl]
      simp
  · -- region already present
    have hshape : (Shard.Unordered rs).create_pieces_in ⟨q, k, cnt⟩ =
        .Unordered (aupdate rs q.region
          fun u => create_unordered_pieces ⟨q, k, cnt⟩ u) := by
      simp only [Shard.create_pieces_in, hreg]
    refine ⟨_, aupdate rs q.region (fun u => create_unordered_pieces ⟨q, k, cnt⟩ u),
      happly, hrun, ?_, ?_⟩
    · show alookup (aupdate st.shards q.pos
        fun s => s.create_pieces_in ⟨q, k, cnt⟩) q.pos = _
      rw [hlook, hshape]
    · rcases hkey : alookup u.counts ⟨q.suffix, k⟩ with _ | n
      · have hc0 : countAt? st q k = none := by
          unfold countAt?
          rw [hsh]
          show regionCount? rs q k = none
          unfold regionCount?
          rw [hreg]
          show alookup u.counts ⟨q.suffix, k⟩ = none
          exact hkey
        rw [hc0]
        unfold countAt?
        show (match alookup (aupdate st.shards q.pos
            fun s => s.create_pieces_in ⟨q, k, cnt⟩) q.pos with
          | some (.Unordered rs) => regionCount? rs q k
          | _ => none) = _
        rw [hlook, hshape]
        show regionCount? (aupdate rs q.region
          fun u => create_unordered_pieces ⟨q, k, cnt⟩ u) q k = _
        unfold regionCount?
        rw [alookup_aupdate_self, hreg]
        show alookup (create_unordered_pieces ⟨q, k, cnt⟩ u).counts ⟨q.suffix, k⟩ = _
        rw [show (create_unordered_pieces ⟨q, k, cnt⟩ u).counts =
            u.counts ++ [((⟨q.suffix, k⟩ : Key), cnt)] from by
          simp only [create_unordered_pieces, hkey]]
        rw [alookup_append_right _ _ _ hkey]
        simp
      · have hc0 : countAt? st q k = some n := by
          unfold countAt?
          rw [hsh]
          show regionCount? rs q k = some n
          unfold regionCount?
          rw [hreg]
          show alookup u.counts ⟨q.suffix, k⟩ = some n
          exact hkey
        rw [hc0]
        unfold countAt?
        show (match alookup (aupdate st.shards q.pos
            fun s => s.create_pieces_in ⟨q, k, cnt⟩) q.pos with
          | some (.Unordered rs) => regionCount? rs q k
          | _ => none) = _
        rw [hlook, hshape]
        show regionCount? (aupdate rs q.region
          fun u => create_unordered_pieces ⟨q, k, cnt⟩ u) q k = _
        unfold regionCount?
        rw [alookup_aupdate_self, hreg]
        show alookup (create_unordered_pieces ⟨q, k, cnt⟩ u).counts ⟨q.suffix, k⟩ = _
        rw [show (create_unordered_pieces ⟨q, k, cnt⟩ u).counts =
            aupdate u.counts ⟨q.suffix, k⟩ (fun c => c + cnt) from by
          simp only [create_unordered_pieces, hkey]]
        rw [alookup_aupdate_self, hkey]
        rfl

theorem mkShard_export (b : Bool) : (mkShard b).export_rows = [] := by
  cases b <;> rfl

theorem flatten_nil_of_all_nil {α : Type} (L : List (List α))
    (h : ∀ l ∈ L, l = []) : L.flatten = [] := by
  induction L with
  | nil => rfl
  | cons l rest ih =>
      rw [List.flatten_cons, h l (by simp), List.nil_append]
      exact ih fun l' hl' => h l' (List.mem_cons_of_mem _ hl')

theorem export_aupdate_congr (shards : List (Pos × Shard)) (p : Pos)
    (f : Shard → Shard)
    (h : ∀ sh, alookup shards p = some sh → (f sh).export_rows = sh.export_rows) :
    ((aupdate shards p f).map fun e => e.2.export_rows).flatten =
      (shards.map fun e => e.2.export_rows).flatten := by
  induction shards with
  | nil => rfl
  | cons e rest ih =>
      obtain ⟨p0, sh0⟩ := e
      by_cases hp : p0 = p
      · subst hp
        rw [show aupdate ((p0, sh0) :: rest) p0 f = (p0, f sh0) :: rest
            from if_pos rfl]
        rw [List.map_cons, List.map_cons, List.flatten_cons, List.flatten_cons]
        rw [h sh0 (if_pos rfl)]
      · rw [show aupdate ((p0, sh0) :: rest) p f = (p0, sh0) :: aupdate rest p f
            from if_neg hp]
        rw [List.map_cons, List.map_cons, List.flatten_cons, List.flatten_cons]
        rw [ih fun sh hsh => h sh (by
          rw [show alookup ((p0, sh0) :: rest) p = alookup rest p from if_neg hp]
          exact hsh)]

theorem table_branch_ne_row_error (l : List SuffixRow) (e : SuffixRowError) :
    (match LookupTable.try_from_list l with
     | .error c => Except.error (ItemError.InvalidSuffixTable c)
     | .ok t => Except.ok (SuffixSpec.Table t)) ≠ .error (.InvalidSuffixRow e) := by
  cases LookupTable.try_from_list l <;> simp

/-! ### Claim theorems: coordinates and suffix specifications -/

/-- C8: for `1 ≤ u ≤ 9999` the conversions of `u` to `Kind` and to `Pos`
succeed and round-trip back to `u`; for `u = 0` or `u > 9999` they fail
with `InvalidKind(u)` / `InvalidPos(u)` carrying the original value. -/
theorem C8_kind_pos_roundtrip (u : Nat) :
    (1 ≤ u → u ≤ 9999 → ∃ k : Kind, Kind.try_from u = .ok k ∧ k.as_u32 = u) ∧
    (1 ≤ u → u ≤ 9999 → ∃ p : Pos, Pos.try_from u = .ok p ∧ p.as_u32 = u) ∧
    (u = 0 ∨ u > 9999 → Kind.try_from u = .error ⟨u⟩) ∧
    (u = 0 ∨ u > 9999 → Pos.try_from u = .error ⟨u⟩) := by
  refine ⟨?_, ?_, ?_, ?_⟩
  · intro h1 h2
    have hm : u % 65536 = u := Nat.mod_eq_of_lt (by omega)
    refine ⟨⟨u⟩, ?_, rfl⟩
    rw [Kind.try_from, if_neg (by simp [MAX_ID]; omega), hm, if_neg (by omega)]
  · intro h1 h2
    have hm : u % 65536 = u := Nat.mod_eq_of_lt (by omega)
    refine ⟨⟨u⟩, ?_, rfl⟩
    rw [Pos.try_from, if_neg (by simp [MAX_ID]; omega), hm, if_neg (by omega)]
  · rintro (rfl | h)
    · rfl
    · rw [Kind.try_from, if_pos (by simpa [MAX_ID] using h)]
  · rintro (rfl | h)
    · rfl
    · rw [Pos.try_from, if_pos (by simpa [MAX_ID] using h)]

/-- Witness for C8 at `u = 52` and `u = 10000`. -/
theorem C8_kind_pos_roundtrip_witness :
    (∃ k : Kind, Kind.try_from 52 = .ok k ∧ k.as_u32 = 52) ∧
    Kind.try_from 10000 = .error ⟨10000⟩ ∧
    Pos.try_from 0 = .error ⟨0⟩ :=
  ⟨(C8_kind_pos_roundtrip 52).1 (by decide) (by decide),
   (C8_kind_pos_roundtrip 10000).2.2.1 (Or.inr (by decide)),
   (C8_kind_pos_roundtrip 0).2.2.2 (Or.inl rfl)⟩

/-- C5: constructing a `SuffixRange` fails with `InvalidSuffixRange`
whenever `min >= max` (so `min = max` fails), while a successfully
constructed range validates suffixes inclusively at both endpoints. -/
theorem C5_suffix_range_bounds (d : SuffixRangeDef) :
    (d.max ≤ d.min → SuffixRange.try_from d = .error (.InvalidSuffixRange d.min d.max)) ∧
    (∀ rng : SuffixRange, SuffixRange.try_from d = .ok rng →
      rng.min.val = d.min ∧ rng.max.val = d.max ∧
      (SuffixSpec.Range rng).is_valid ⟨d.min⟩ = true ∧
      (SuffixSpec.Range rng).is_valid ⟨d.max⟩ = true ∧
      (∀ v : Suffix, (SuffixSpec.Range rng).is_valid v = true ↔
        d.min ≤ v.val ∧ v.val ≤ d.max)) := by
  constructor
  · intro h
    rw [SuffixRange.try_from, if_neg (by omega)]
  · intro rng h
    rw [SuffixRange.try_from] at h
    by_cases hlt : d.min < d.max
    · rw [if_pos hlt] at h
      cases h
      refine ⟨rfl, rfl, ?_, ?_, ?_⟩
      · simp [SuffixSpec.is_valid, SuffixRange.contains_suffix]
        omega
      · simp [SuffixSpec.is_valid, SuffixRange.contains_suffix]
        omega
      · intro v
        simp [SuffixSpec.is_valid, SuffixRange.contains_suffix]
    · rw [if_neg hlt] at h
      cases h

/-- Witness for C5 at ranges `(5,5)` and `(1,52)`. -/
theorem C5_suffix_range_bounds_witness :
    SuffixRange.try_from ⟨5, 5⟩ = .error (.InvalidSuffixRange 5 5) ∧
    (SuffixSpec.Range ⟨⟨1⟩, ⟨52⟩⟩).is_valid ⟨1⟩ = true ∧
    (SuffixSpec.Range ⟨⟨1⟩, ⟨52⟩⟩).is_valid ⟨52⟩ = true ∧
    (SuffixSpec.Range ⟨⟨1⟩, ⟨52⟩⟩).is_valid ⟨0⟩ = false ∧
    (SuffixSpec.Range ⟨⟨1⟩, ⟨52⟩⟩).is_valid ⟨53⟩ = false := by
  have h := (C5_suffix_range_bounds ⟨1, 52⟩).2 ⟨⟨1⟩, ⟨52⟩⟩ (by rfl)
  refine ⟨(C5_suffix_range_bounds ⟨5, 5⟩).1 (by decide), h.2.2.1, h.2.2.2.1, ?_, ?_⟩
  · have := h.2.2.2.2 ⟨0⟩
    revert this
    decide
  · have := h.2.2.2.2 ⟨53⟩
    revert this
    decide

/-- C7: `convert_suffixes` dispatches exhaustively on its two inputs:
range plus non-empty rows fails `SuffixesAndRangeDefined`; both absent
yields `Empty`, which validates exactly suffix zero; range alone defers
to the range construction; rows alone build a table from the converted
rows. -/
theorem C7_convert_suffixes_dispatch :
    (∀ (r : SuffixRangeDef) (rows : List SuffixDef), rows ≠ [] →
      convert_suffixes (some r) rows = .error .SuffixesAndRangeDefined) ∧
    (convert_suffixes none [] = .ok .Empty) ∧
    (∀ v : Suffix, SuffixSpec.Empty.is_valid v = true ↔ v.val = 0) ∧
    (∀ r : SuffixRangeDef, convert_suffixes (some r) [] =
      match SuffixRange.try_from r with
      | .ok rng => .ok (.Range rng)
      | .error e => .error e) ∧
    (∀ (d : SuffixDef) (ds : List SuffixDef), convert_suffixes none (d :: ds) =
      match LookupTable.try_from_list
          ((d :: ds).map fun x => SuffixRow.mk ⟨u32_as_i32 x.id⟩ x.label) with
      | .error c => .error (.InvalidSuffixTable c)
      | .ok t => .ok (.Table t)) := by
  refine ⟨?_, rfl, ?_, ?_, ?_⟩
  · intro r rows h
    rw [convert_suffixes, if_neg (by simpa [List.isEmpty_iff] using h)]
  · intro v
    simp [SuffixSpec.is_valid]
  · intro r
    rfl
  · intro d ds
    rw [convert_suffixes, if_neg (by simp), convertSuffixRows_eq]

/-- Witness for C7 on concrete inputs. -/
theorem C7_convert_suffixes_dispatch_witness :
    convert_suffixes (some ⟨1, 52⟩) [⟨"hearts", 1⟩] = .error .SuffixesAndRangeDefined ∧
    (SuffixSpec.Empty.is_valid ⟨0⟩ = true) ∧
    ¬ (SuffixSpec.Empty.is_valid ⟨1⟩ = true) :=
  ⟨C7_convert_suffixes_dispatch.1 ⟨1, 52⟩ [⟨"hearts", 1⟩] (by decide),
   (C7_convert_suffixes_dispatch.2.2.1 ⟨0⟩).mpr rfl,
   fun h => by simpa using (C7_convert_suffixes_dispatch.2.2.1 ⟨1⟩).mp h⟩

/-- C10: converting a `SuffixDef` to a `SuffixRow` always succeeds,
reinterpreting the unsigned id as a signed 32-bit suffix (ids at or above
2^31 become negative), so `convert_suffixes` can never return
`InvalidSuffixRow`. -/
theorem C10_suffix_row_infallible :
    (∀ d : SuffixDef, SuffixRow.try_from d = .ok ⟨⟨u32_as_i32 d.id⟩, d.label⟩) ∧
    (∀ u : Nat, 2 ^ 31 ≤ u → u < 2 ^ 32 → u32_as_i32 u < 0) ∧
    (∀ (range : Option SuffixRangeDef) (rows : List SuffixDef) (e : SuffixRowError),
      convert_suffixes range rows ≠ .error (.InvalidSuffixRow e)) := by
  refine ⟨fun d => rfl, ?_, ?_⟩
  · intro u h1 h2
    rw [u32_as_i32, if_neg (by omega)]
    have : (u : Int) < 2 ^ 32 := by exact_mod_cast h2
    omega
  · intro range rows e
    match range, rows with
    | some r, [] =>
        rw [convert_suffixes]
        simp only [List.isEmpty_nil, if_true]
        by_cases h : r.min < r.max <;> simp [SuffixRange.try_from, h]
    | some r, d :: ds =>
        rw [convert_suffixes, if_neg (by simp)]
        simp
    | none, [] => simp [convert_suffixes]
    | none, d :: ds =>
        rw [convert_suffixes, if_neg (by simp), convertSuffixRows_eq]
        exact table_branch_ne_row_error _ e

/-- Witness for C10: a large id becomes a negative suffix and the
`InvalidSuffixRow` branch is not taken on a concrete call. -/
theorem C10_suffix_row_infallible_witness :
    SuffixRow.try_from ⟨"big", 2147483648⟩ = .ok ⟨⟨u32_as_i32 2147483648⟩, "big"⟩ ∧
    u32_as_i32 2147483648 < 0 ∧
    convert_suffixes none [⟨"hearts", 1⟩] ≠ .error (.InvalidSuffixRow .Thing) :=
  ⟨C10_suffix_row_infallible.1 ⟨"big", 2147483648⟩,
   C10_suffix_row_infallible.2.1 2147483648 (by norm_num) (by norm_num),
   C10_suffix_row_infallible.2.2 none [⟨"hearts", 1⟩] .Thing⟩

/-- C4: `push` reports an id collision with priority over a label
collision, reports a label collision when only the label is taken, and
otherwise stores the value under both indices; building a table from a
sequence inserts in order and surfaces the first collision, abandoning
the remaining values. -/
theorem C4_lookup_push_first_collision {I V : Type} [DecidableEq I]
    [HasId I V] [Labelled V] (t : LookupTable I V) (v : V) :
    (t.contains_id (HasId.id v) = true →
      t.push v = .error (.IdCollision (HasId.id v))) ∧
    (t.contains_id (HasId.id v) = false →
      (alookup t.label_index (Labelled.label v)).isSome = true →
      t.push v = .error (.LabelCollision (Labelled.label v))) ∧
    (t.contains_id (HasId.id v) = false →
      (alookup t.label_index (Labelled.label v)).isSome = false →
      ∃ t2, t.push v = .ok t2 ∧ t2.find (HasId.id v) = some v ∧
        t2.find_by_label (Labelled.label v) = some v) ∧
    (∀ (vs₁ vs₂ : List V) (tacc : LookupTable I V) (c : Collision I),
      LookupTable.pushAll LookupTable.empty vs₁ = .ok tacc →
      tacc.push v = .error c →
      LookupTable.try_from_list (vs₁ ++ v :: vs₂) = .error c) := by
  refine ⟨?_, ?_, ?_, ?_⟩
  · intro h
    rw [LookupTable.push, if_pos (by simpa [LookupTable.contains_id] using h)]
  · intro h1 h2
    rw [LookupTable.push,
      if_neg (by simp [LookupTable.contains_id] at h1; simp [h1]),
      if_pos h2]
  · intro h1 h2
    have hid : alookup t.values (HasId.id v) = none :=
      Option.not_isSome_iff_eq_none.mp (by
        simp only [LookupTable.contains_id] at h1
        simp [h1])
    have hlab : alookup t.label_index (Labelled.label v) = none :=
      Option.not_isSome_iff_eq_none.mp (by simp [h2])
    refine ⟨⟨t.values ++ [(HasId.id v, v)],
      t.label_index ++ [(Labelled.label v, HasId.id v)]⟩, ?_, ?_, ?_⟩
    · rw [LookupTable.push, if_neg (by simp [hid]), if_neg (by simp [hlab])]
    · exact alookup_append_right _ _ _ hid
    · rw [LookupTable.find_by_label]
      rw [show alookup (t.label_index ++ [(Labelled.label v, HasId.id v)])
            (Labelled.label v) = some (HasId.id v)
          from alookup_append_right _ _ _ hlab]
      exact alookup_append_right _ _ _ hid
  · intro vs₁ vs₂ tacc c h1 h2
    rw [LookupTable.try_from_list, pushAll_append, h1]
    show LookupTable.pushAll tacc (v :: vs₂) = .error c
    rw [show LookupTable.pushAll tacc (v :: vs₂) =
        match tacc.push v with
        | .error c => .error c
        | .ok t2 => t2.pushAll vs₂ from rfl,
      h2]

/-- Witness for C4 with concrete suffix rows: an id collision is
reported even when the label also collides, a pure label collision is
reported, a fresh row is stored under both indices, and table building
surfaces the first collision while abandoning the rest. -/
theorem C4_lookup_push_first_collision_witness :
    LookupTable.push ⟨[(⟨1⟩, ⟨⟨1⟩, "x"⟩)], [("x", ⟨1⟩)]⟩ (⟨⟨1⟩, "x"⟩ : SuffixRow) =
      .error (.IdCollision ⟨1⟩) ∧
    LookupTable.push ⟨[(⟨1⟩, ⟨⟨1⟩, "x"⟩)], [("x", ⟨1⟩)]⟩ (⟨⟨2⟩, "x"⟩ : SuffixRow) =
      .error (.LabelCollision "x") ∧
    (∃ t2, LookupTable.push ⟨[(⟨1⟩, ⟨⟨1⟩, "x"⟩)], [("x", ⟨1⟩)]⟩
        (⟨⟨2⟩, "y"⟩ : SuffixRow) = .ok t2 ∧
      t2.find ⟨2⟩ = some ⟨⟨2⟩, "y"⟩ ∧ t2.find_by_label "y" = some ⟨⟨2⟩, "y"⟩) ∧
    LookupTable.try_from_list
        [(⟨⟨1⟩, "x"⟩ : SuffixRow), ⟨⟨1⟩, "y"⟩, ⟨⟨2⟩, "z"⟩] =
      .error (.IdCollision ⟨1⟩) :=
  ⟨(C4_lookup_push_first_collision ⟨[(⟨1⟩, ⟨⟨1⟩, "x"⟩)], [("x", ⟨1⟩)]⟩
      (⟨⟨1⟩, "x"⟩ : SuffixRow)).1 (by decide),
   (C4_lookup_push_first_collision ⟨[(⟨1⟩, ⟨⟨1⟩, "x"⟩)], [("x", ⟨1⟩)]⟩
      (⟨⟨2⟩, "x"⟩ : SuffixRow)).2.1 (by decide) (by decide),
   (C4_lookup_push_first_collision ⟨[(⟨1⟩, ⟨⟨1⟩, "x"⟩)], [("x", ⟨1⟩)]⟩
      (⟨⟨2⟩, "y"⟩ : SuffixRow)).2.2.1 (by decide) (by decide),
   (C4_lookup_push_first_collision LookupTable.empty
      (⟨⟨1⟩, "y"⟩ : SuffixRow)).2.2.2 [⟨⟨1⟩, "x"⟩] [⟨⟨2⟩, "z"⟩] _
      (.IdCollision ⟨1⟩) rfl (by rfl)⟩

/-- C9: for a compiled spec, `State::new` allocates exactly one shard per
declared position, keyed by that position's id, typed by its `ordered`
flag, with zero regions, and its export is empty. -/
theorem C9_state_new_shape (d : GameDef) (spec : GameSpec)
    (h : GameSpec.try_from d = .ok spec) :
    (State.new spec).shards =
      spec.pos_specs.values.map (fun e => (e.1, mkShard e.2.ordered)) ∧
    (State.new spec).shards.length = spec.pos_specs.values.length ∧
    (∀ (p : Pos) (ps : PosSpec), spec.pos_specs.find p = some ps →
      alookup (State.new spec).shards p = some (mkShard ps.ordered)) ∧
    State.export_rows (State.new spec) = [] := by
  have hwf := gamespec_pos_table_WF d spec h
  refine ⟨State.new_shards spec hwf, ?_, ?_, ?_⟩
  · rw [State.new_shards spec hwf, List.length_map]
  · intro p ps hf
    rw [State.new_alookup spec hwf p]
    rw [show spec.pos_specs.find p = alookup spec.pos_specs.values p from rfl] at hf
    rw [hf]
    rfl
  · rw [show State.export_rows (State.new spec) =
        ((State.new spec).shards.map fun e => e.2.export_rows).flatten from rfl]
    rw [State.new_shards spec hwf]
    refine flatten_nil_of_all_nil _ fun l hl => ?_
    rcases List.mem_map.mp hl with ⟨e, he, rfl⟩
    rcases List.mem_map.mp he with ⟨e0, _, rfl⟩
    exact mkShard_export _

/-- Witness for C9 on a concrete two-position definition. -/
theorem C9_state_new_shape_witness :
    GameSpec.try_from gameDef1 = .ok gameSpec1 ∧
    State.export_rows (State.new gameSpec1) = [] ∧
    (State.new gameSpec1).shards.length = 2 :=
  ⟨rfl, (C9_state_new_shape gameDef1 gameSpec1 rfl).2.2.2,
   ((C9_state_new_shape gameDef1 gameSpec1 rfl).2.1).trans (by rfl)⟩

/-- C3: against a state built from a compiled spec, `apply` fails with
`NoSuchPos` exactly when the command's position is not declared; when it
is declared the command succeeds for every region and suffix value, with
no suffix-legality check. -/
theorem C3_no_such_pos (d : GameDef) (spec : GameSpec) (st : State)
    (cmds : List Cmd) (c : CreatePieces)
    (hspec : GameSpec.try_from d = .ok spec)
    (hst : st = runCmds (State.new spec) cmds) :
    (applyCmd st (.CreatePieces c) = .error (.NoSuchPos c.pos.pos) ↔
      spec.pos_specs.contains_id c.pos.pos = false) ∧
    (spec.pos_specs.contains_id c.pos.pos = true →
      ∃ st2, applyCmd st (.CreatePieces c) = .ok st2) := by
  have hwf := gamespec_pos_table_WF d spec hspec
  have hmem : (alookup st.shards c.pos.pos).isSome = true ↔
      spec.pos_specs.contains_id c.pos.pos = true := by
    have h1 := alookup_isSome_iff_mem st.shards c.pos.pos
    have h2 := alookup_isSome_iff_mem (State.new spec).shards c.pos.pos
    rw [hst] at h1 ⊢
    rw [runCmds_keys] at h1
    rw [h1, ← h2, State.new_alookup spec hwf]
    rw [show spec.pos_specs.contains_id c.pos.pos =
        (alookup spec.pos_specs.values c.pos.pos).isSome from rfl]
    cases alookup spec.pos_specs.values c.pos.pos <;> simp
  constructor
  · constructor
    · intro happ
      rcases hl : alookup st.shards c.pos.pos with _ | sh
      · refine Bool.eq_false_iff.mpr fun hc => ?_
        have := hmem.mpr hc
        rw [hl] at this
        cases this
      · rw [applyCmd, create_pieces_some st c sh hl] at happ
        cases happ
    · intro hfalse
      rcases hl : alookup st.shards c.pos.pos with _ | sh
      · rw [applyCmd]
        exact create_pieces_none st c hl
      · exfalso
        have hsome : (alookup st.shards c.pos.pos).isSome = true := by
          rw [hl]
          rfl
        have := hmem.mp hsome
        rw [hfalse] at this
        cases this
  · intro htrue
    have hsome := hmem.mpr htrue
    rcases hl : alookup st.shards c.pos.pos with _ | sh
    · rw [hl] at hsome
      cases hsome
    · exact ⟨_, by rw [applyCmd]; exact create_pieces_some st c sh hl⟩

/-- Witness for C3: position 3 is undeclared and fails, position 1 is
declared and succeeds even with arbitrary region and suffix values. -/
theorem C3_no_such_pos_witness :
    applyCmd (State.new gameSpec1)
      (.CreatePieces ⟨⟨⟨3⟩, ⟨7⟩, ⟨9⟩⟩, ⟨⟨1⟩, ⟨-5⟩⟩, 1⟩) =
      .error (.NoSuchPos ⟨3⟩) ∧
    (∃ st2, applyCmd (State.new gameSpec1)
      (.CreatePieces ⟨⟨⟨1⟩, ⟨7⟩, ⟨9⟩⟩, ⟨⟨1⟩, ⟨-5⟩⟩, 1⟩) = .ok st2) :=
  ⟨(C3_no_such_pos gameDef1 gameSpec1 (State.new gameSpec1) []
      ⟨⟨⟨3⟩, ⟨7⟩, ⟨9⟩⟩, ⟨⟨1⟩, ⟨-5⟩⟩, 1⟩ rfl rfl).1.mpr (by decide),
   (C3_no_such_pos gameDef1 gameSpec1 (State.new gameSpec1) []
      ⟨⟨⟨1⟩, ⟨7⟩, ⟨9⟩⟩, ⟨⟨1⟩, ⟨-5⟩⟩, 1⟩ rfl rfl).2 (by decide)⟩

/-- C6: creating pieces at a declared ordered position succeeds and
leaves the multiset of export rows unchanged — ordered creation stores
no piece data. -/
theorem C6_ordered_create_noop (spec : GameSpec) (st : State) (cmds : List Cmd)
    (c : CreatePieces) (ps : PosSpec)
    (hwf : spec.pos_specs.WF)
    (hst : st = runCmds (State.new spec) cmds)
    (hfind : spec.pos_specs.find c.pos.pos = some ps)
    (hord : ps.ordered = true) :
    ∃ st2, applyCmd st (.CreatePieces c) = .ok st2 ∧
      List.Perm (State.export_rows st2) (State.export_rows st) := by
  have htag : (alookup st.shards c.pos.pos).map Shard.isOrdered = some true := by
    rw [hst, runCmds_tag, State.new_alookup spec hwf]
    rw [show spec.pos_specs.find c.pos.pos =
        alookup spec.pos_specs.values c.pos.pos from rfl] at hfind
    rw [hfind]
    simp [mkShard, hord, Shard.isOrdered]
  rcases hl : alookup st.shards c.pos.pos with _ | sh
  · rw [hl] at htag
    cases htag
  · rw [hl] at htag
    cases sh with
    | Unordered rs => simp [Shard.isOrdered] at htag
    | Ordered rs =>
        refine ⟨_, by rw [applyCmd]; exact create_pieces_some st c _ hl, ?_⟩
        have hshard : ((Shard.Ordered rs).create_pieces_in c).export_rows =
            (Shard.Ordered rs).export_rows := by
          rcases hr : alookup rs c.pos.region with _ | o
          · simp only [Shard.create_pieces_in, hr]
            rw [Shard.export_rows, Shard.export_rows, List.map_append,
              List.flatten_append]
            rw [show ([(c.pos.region, create_ordered_pieces c
                (OrderedShard.new c.pos.pos c.pos.region))].map
                fun e => e.2.export_rows).flatten = [] from rfl]
            rw [List.append_nil]
          · rw [ordered_region_present_noop rs c o hr]
        have hexp : State.export_rows
            ⟨aupdate st.shards c.pos.pos fun s => s.create_pieces_in c⟩ =
            State.export_rows st := by
          rw [show State.export_rows
              ⟨aupdate st.shards c.pos.pos fun s => s.create_pieces_in c⟩ =
              ((aupdate st.shards c.pos.pos fun s => s.create_pieces_in c).map
                fun e => e.2.export_rows).flatten from rfl]
          rw [show State.export_rows st =
              (st.shards.map fun e => e.2.export_rows).flatten from rfl]
          refine export_aupdate_congr st.shards c.pos.pos _ fun sh hsh => ?_
          rw [hl] at hsh
          cases hsh
          exact hshard
        rw [hexp]

/-- Witness for C6 on the ordered `row` position of the concrete spec. -/
theorem C6_ordered_create_noop_witness :
    ∃ st2, applyCmd (State.new gameSpec1) (.CreatePieces ⟨qRow, qHearts, 1⟩) =
      .ok st2 ∧
    List.Perm (State.export_rows st2)
      (State.export_rows (State.new gameSpec1)) :=
  C6_ordered_create_noop gameSpec1 (State.new gameSpec1) []
    ⟨qRow, qHearts, 1⟩ rowPosSpec (by decide) rfl (by rfl) rfl

/-- C1 (amended): the vector returned by `export_rows` is in internal
iteration order and is not sorted in general; the caller-side re-sort of
it is sorted by the `(QPos, QKind)`-first row ordering and is a
permutation of the returned rows. -/
theorem C1_export_sorted_after_sort (st : State) :
    rowsSorted (sortRows (State.export_rows st)) ∧
    List.Perm (sortRows (State.export_rows st)) (State.export_rows st) := by
  constructor
  · refine List.sorted_mergeSort ?_ ?_ (State.export_rows st)
    · intro a b c hab hbc
      simp only [ExportRow.le, decide_eq_true_eq] at hab hbc ⊢
      exact le_trans hab hbc
    · intro a b
      simp only [ExportRow.le]
      rcases le_total a.sortKey b.sortKey with h | h <;> simp [h]
  · exact List.mergeSort_perm _ _

/-- C1 counterexample: inserting spades before hearts at the same
position yields an export vector that is not sorted. -/
theorem C1_counterexample : ¬ rowsSorted (State.export_rows stOutOfOrder) := by
  decide

/-- C2 (amended): on a declared unordered position, applying two
`CreatePieces` at one coordinate yields exactly one export row for it,
counting the coordinate's prior count plus `c1 + c2` — `c1 + c2` exactly
when previously unoccupied; the second write accumulates, never
overwrites. -/
theorem C2_unordered_accumulate (spec : GameSpec) (st : State) (cmds : List Cmd)
    (q : QPos) (k : QKind) (c1 c2 : Nat) (ps : PosSpec)
    (hwf : spec.pos_specs.WF)
    (hst : st = runCmds (State.new spec) cmds)
    (hfind : spec.pos_specs.find q.pos = some ps)
    (hord : ps.ordered = false) :
    ∃ st1 st2, applyCmd st (.CreatePieces ⟨q, k, c1⟩) = .ok st1 ∧
      applyCmd st1 (.CreatePieces ⟨q, k, c2⟩) = .ok st2 ∧
      (State.export_rows st2).filter (coordMatches q k) =
        [⟨q, k, (countAt? st q k).getD 0 + c1 + c2⟩] := by
  have htag : (alookup st.shards q.pos).map Shard.isOrdered = some false := by
    rw [hst, runCmds_tag, State.new_alookup spec hwf]
    rw [show spec.pos_specs.find q.pos =
        alookup spec.pos_specs.values q.pos from rfl] at hfind
    rw [hfind]
    simp [mkShard, hord, Shard.isOrdered]
  rcases hl : alookup st.shards q.pos with _ | sh
  · rw [hl] at htag
    cases htag
  · rw [hl] at htag
    cases sh with
    | Ordered rs => simp [Shard.isOrdered] at htag
    | Unordered rs =>
        obtain ⟨st1, rs1, happ1, hrun1, hl1, hcnt1⟩ :=
          apply_unordered_count st q k c1 rs hl
        obtain ⟨st2, rs2, happ2, hrun2, hl2, hcnt2⟩ :=
          apply_unordered_count st1 q k c2 rs1 hl1
        refine ⟨st1, st2, happ1, happ2, ?_⟩
        have hWFst : st.WF := by
          rw [hst]
          exact runCmds_WF cmds _ (State.new_WF spec)
        have hWFst1 : st1.WF := by
          rw [← hrun1]
          exact runCmd_WF st _ hWFst
        have hWFst2 : st2.WF := by
          rw [← hrun2]
          exact runCmd_WF st1 _ hWFst1
        have hfilter := filter_export_list q k rs2 st2.shards
          hWFst2.1 hWFst2.2 hl2
        rw [show State.export_rows st2 =
            ((st2.shards.map fun e => e.2.export_rows).flatten) from rfl]
        rw [hfilter]
        have hrc : regionCount? rs2 q k = countAt? st2 q k := by
          unfold countAt?
          rw [hl2]
        rw [hrc, hcnt2]
        show [(⟨q, k, (countAt? st1 q k).getD 0 + c2⟩ : ExportRow)] = _
        rw [hcnt1]
        rfl

/-- Witness for C2 as amended, starting from a fresh state where the
coordinate is unoccupied. -/
theorem C2_unordered_accumulate_witness :
    ∃ st1 st2, applyCmd (State.new gameSpec1)
        (.CreatePieces ⟨qDeck, qHearts, 1⟩) = .ok st1 ∧
      applyCmd st1 (.CreatePieces ⟨qDeck, qHearts, 3⟩) = .ok st2 ∧
      (State.export_rows st2).filter (coordMatches qDeck qHearts) =
        [⟨qDeck, qHearts,
          (countAt? (State.new gameSpec1) qDeck qHearts).getD 0 + 1 + 3⟩] :=
  C2_unordered_accumulate gameSpec1 (State.new gameSpec1) [] qDeck qHearts 1 3
    deckPosSpec (by decide) rfl (by rfl) rfl

/-- C2 counterexample: when the coordinate already holds count 5, the two
writes of 1 and 3 leave a single row of count 9, not `c1 + c2 = 4`. -/
theorem C2_counterexample :
    applyCmd stPre (.CreatePieces ⟨qDeck, qHearts, 1⟩) = .ok stPre1 ∧
    applyCmd stPre1 (.CreatePieces ⟨qDeck, qHearts, 3⟩) = .ok stPre2 ∧
    (State.export_rows stPre2).filter (coordMatches qDeck qHearts) =
      [⟨qDeck, qHearts, 9⟩] ∧
    ¬ ((State.export_rows stPre2).filter (coordMatches qDeck qHearts) =
      [⟨qDeck, qHearts, 1 + 3⟩]) :=
  ⟨rfl, rfl, by decide, by decide⟩

end Knott
